import Mathlib

/-!
Verification of the Trispr Flow VibeVoice-ASR sidecar core
(src/sidecar/vibevoice-asr: inference.py, model_loader.py, worker_once.py).

Shallow embedding conventions:
* Python floats are modelled as exact rationals (ℚ).  Decimal literals from
  the source are written as the corresponding rationals (0.05 = 1/20, ...).
* Python dict values that the code reads with .get(key) are modelled by the
  type PyVal: absent/None, a number, or a string.
* Python truthiness: None, 0.0 and "" are falsy; everything else is truthy.
* str.strip(), str.lower(), str.split() and the "in" substring test are
  implemented over the character list of the string.
* float("inf")/float("nan") are not representable in ℚ; the string parser
  returns absent for them (they are never exercised by the claims).
-/

namespace TrisprFlow

/-- A Python value as read from a JSON-ish dict via .get: absent (None),
a number, or a string. -/
inductive PyVal where
  | none : PyVal
  | num : ℚ → PyVal
  | str : String → PyVal
deriving DecidableEq

/-- Python truthiness on PyVal: None, 0.0 and the empty string are falsy. -/
def PyVal.truthy : PyVal → Bool
  | .none => false
  | .num q => decide (q ≠ 0)
  | .str s => decide (s ≠ "")

/-- Python `a or b` on dict values: the first operand if truthy, else the
second. -/
def pyOrV (a b : PyVal) : PyVal := if a.truthy then a else b

/-- Stand-in rendering of numbers for Python str(); only reached when a
text/speaker field holds a number, which no claim exercises. -/
def ratStr (q : ℚ) : String := toString q

/-- Python str() on a PyVal. -/
def pyStr : PyVal → String
  | .none => "None"
  | .num q => ratStr q
  | .str s => s

/-- The whitespace class used by Python str.strip()/str.split() (ASCII part). -/
def isPySpace (c : Char) : Bool :=
  c = ' ' ∨ c = '\t' ∨ c = '\n' ∨ c = '\r' ∨ c = '\x0b' ∨ c = '\x0c'

/-- Strip leading and trailing whitespace from a character list. -/
def stripList (cs : List Char) : List Char :=
  ((cs.dropWhile isPySpace).reverse.dropWhile isPySpace).reverse

/-- Python str.strip(). -/
def pyStrip (s : String) : String := String.mk (stripList s.data)

/-- Python str.lower() (ASCII). -/
def pyLower (s : String) : String := String.mk (s.data.map Char.toLower)

/-- Count the words of Python text.split(): maximal runs of non-whitespace. -/
def wordCountAux : Bool → List Char → Nat
  | _, [] => 0
  | inWord, c :: rest =>
    if isPySpace c then wordCountAux false rest
    else (if inWord then 0 else 1) + wordCountAux true rest

/-- len(text.split()) for Python text. -/
def wordCount (s : String) : Nat := wordCountAux false s.data

/-- Is the first list a prefix of the second (over characters)? -/
def chPrefix : List Char → List Char → Bool
  | [], _ => true
  | _ :: _, [] => false
  | a :: as, b :: bs => a = b && chPrefix as bs

/-- Contiguous-sublist test over characters. -/
def chContains (needle : List Char) : List Char → Bool
  | [] => needle.isEmpty
  | c :: rest => chPrefix needle (c :: rest) || chContains needle rest

/-- Python `needle in hay` on strings. -/
def pyIn (needle hay : String) : Bool := chContains needle.data hay.data

/-- Value of a digit run, most significant first. -/
def digitsVal (ds : List Char) : ℕ :=
  ds.foldl (fun a c => 10 * a + (c.toNat - 48)) 0

/-- Python float(text) on an already-stripped character list, for finite
decimal/exponent literals: optional sign, digits with optional fractional
part (at least one digit overall), optional exponent.  inf/nan are not
representable in ℚ and yield absent. -/
def pyFloatCore (cs : List Char) : Option ℚ :=
  let (sgn, rest) :=
    match cs with
    | '+' :: r => ((1 : ℚ), r)
    | '-' :: r => ((-1 : ℚ), r)
    | r => ((1 : ℚ), r)
  let intDs := rest.takeWhile Char.isDigit
  let rest2 := rest.dropWhile Char.isDigit
  let (fracDs, rest4) :=
    match rest2 with
    | '.' :: r3 => (r3.takeWhile Char.isDigit, r3.dropWhile Char.isDigit)
    | r => (([] : List Char), r)
  if intDs.isEmpty ∧ fracDs.isEmpty then Option.none
  else
    let mant : ℚ := sgn * ((digitsVal intDs : ℚ) +
      (digitsVal fracDs : ℚ) / ((10 : ℚ) ^ fracDs.length))
    match rest4 with
    | [] => Option.some mant
    | e :: r5 =>
      if e = 'e' ∨ e = 'E' then
        let (esgnNeg, r6) :=
          match r5 with
          | '+' :: r => (false, r)
          | '-' :: r => (true, r)
          | r => (false, r)
        let expDs := r6.takeWhile Char.isDigit
        let r7 := r6.dropWhile Char.isDigit
        if expDs.isEmpty ∨ ¬ r7.isEmpty then Option.none
        else if esgnNeg then Option.some (mant / (10 : ℚ) ^ digitsVal expDs)
        else Option.some (mant * (10 : ℚ) ^ digitsVal expDs)
      else Option.none

/-- Python float(s): strips surrounding whitespace first. -/
def pyFloat (s : List Char) : Option ℚ := pyFloatCore (stripList s)

/-- Match of the regex [-+]?\d*\.?\d+ anchored at the start of the list
(leftmost-greedy backtracking semantics), returning the matched text. -/
def matchNumAt (cs : List Char) : Option (List Char) :=
  let (sgn, rest) :=
    match cs with
    | '+' :: r => (['+'], r)
    | '-' :: r => (['-'], r)
    | r => (([] : List Char), r)
  let ds := rest.takeWhile Char.isDigit
  let rest2 := rest.dropWhile Char.isDigit
  match rest2 with
  | '.' :: r3 =>
    let fs := r3.takeWhile Char.isDigit
    if fs.isEmpty then (if ds.isEmpty then Option.none else Option.some (sgn ++ ds))
    else Option.some (sgn ++ ds ++ '.' :: fs)
  | _ => if ds.isEmpty then Option.none else Option.some (sgn ++ ds)

/-- re.search of _FLOAT_TIME_REGEX: first position with a match wins. -/
def searchNum : List Char → Option (List Char)
  | [] => Option.none
  | c :: rest =>
    match matchNumAt (c :: rest) with
    | Option.some m => Option.some m
    | Option.none => searchNum rest

/-- Python text.split(":"). -/
def splitColon : List Char → List (List Char)
  | [] => [[]]
  | ':' :: rest => [] :: splitColon rest
  | c :: rest =>
    match splitColon rest with
    | [] => [[c]]
    | p :: ps => (c :: p) :: ps

/-- The colon branch of _safe_parse_time: HH:MM:SS or MM:SS, each part via
Python float(); any failure falls through (absent). -/
def parseColon (cs : List Char) : Option ℚ :=
  match splitColon cs with
  | [h, m, s] =>
    match pyFloat h, pyFloat m, pyFloat s with
    | Option.some hv, Option.some mv, Option.some sv =>
      Option.some (hv * 3600 + mv * 60 + sv)
    | _, _, _ => Option.none
  | [m, s] =>
    match pyFloat m, pyFloat s with
    | Option.some mv, Option.some sv => Option.some (mv * 60 + sv)
    | _, _ => Option.none
  | _ => Option.none

/-- inference._safe_parse_time: numbers pass through unchanged; strings are
stripped, tried as colon-separated clock times, then scanned for the first
decimal number; otherwise absent. -/
def _safe_parse_time : PyVal → Option ℚ
  | .none => Option.none
  | .num q => Option.some q
  | .str v =>
    let text := stripList v.data
    if text.isEmpty then Option.none
    else
      match (if text.contains ':' then parseColon text else Option.none) with
      | Option.some t => Option.some t
      | Option.none =>
        match searchNum text with
        | Option.some m => pyFloatCore m
        | Option.none => Option.none

/-- A normalized transcript segment, as built by
normalize_transcription_segments (dict with keys speaker, start_time,
end_time, text). -/
structure Seg where
  speaker : String
  startT : ℚ
  endT : ℚ
  text : String
deriving DecidableEq

/-- A raw transcription entry: the dict keys that
normalize_transcription_segments reads, each a PyVal (absent when the key
is missing).  Field StartTime stands for the key "Start time", EndTime for
"End time", SpeakerID for "Speaker ID", end_ for "end". -/
structure RawEntry where
  text : PyVal := .none
  Content : PyVal := .none
  content : PyVal := .none
  transcript : PyVal := .none
  speaker : PyVal := .none
  speaker_id : PyVal := .none
  SpeakerID : PyVal := .none
  Speaker : PyVal := .none
  start_time : PyVal := .none
  start : PyVal := .none
  StartTime : PyVal := .none
  Start : PyVal := .none
  end_time : PyVal := .none
  end_ : PyVal := .none
  EndTime : PyVal := .none
  End : PyVal := .none
deriving DecidableEq

/-- Python `a or b` on parsed times (Optional[float]): None and 0.0 are
falsy and fall through to the second operand. -/
def pyOrT (a b : Option ℚ) : Option ℚ :=
  match a with
  | Option.some q => if q ≠ 0 then Option.some q else b
  | Option.none => b

/-- The aliased-key time extraction of normalize_transcription_segments:
parse(k1) or parse(k2) or parse(k3) or parse(k4) with Python `or`. -/
def extractTime (a b c d : PyVal) : Option ℚ :=
  pyOrT (_safe_parse_time a)
    (pyOrT (_safe_parse_time b)
      (pyOrT (_safe_parse_time c) (_safe_parse_time d)))

/-- Text extraction of normalize_transcription_segments:
str(text or Content or content or transcript or "").strip(). -/
def entryText (e : RawEntry) : String :=
  pyStrip (pyStr (pyOrV e.text (pyOrV e.Content
    (pyOrV e.content (pyOrV e.transcript (.str ""))))))

/-- Speaker extraction: str(speaker or speaker_id or "Speaker ID" or
Speaker or "Speaker_0").strip(). -/
def entrySpeaker (e : RawEntry) : String :=
  pyStrip (pyStr (pyOrV e.speaker (pyOrV e.speaker_id
    (pyOrV e.SpeakerID (pyOrV e.Speaker (.str "Speaker_0"))))))

/-- Start extraction with the missing-start fallback: previous kept
segment's end, or idx*2.0 for the first kept segment. -/
def entryStart (idx : ℕ) (prevEnd? : Option ℚ) (e : RawEntry) : ℚ :=
  match extractTime e.start_time e.start e.StartTime e.Start with
  | Option.some v => v
  | Option.none =>
    match prevEnd? with
    | Option.some pe => pe
    | Option.none => (idx : ℚ) * 2

/-- End extraction with the missing-end fallback:
start + max(0.6, wordCount * 0.35). -/
def entryEnd (startV : ℚ) (text : String) (e : RawEntry) : ℚ :=
  match extractTime e.end_time e.end_ e.EndTime e.End with
  | Option.some v => v
  | Option.none =>
    startV + max (3/5 : ℚ) ((max (wordCount text) 1 : ℕ) * (7/20 : ℚ))

/-- Per-entry phase of normalize_transcription_segments: absent when the
entry is dropped (empty text); otherwise the extracted segment, with the
degenerate repair end := start + 0.5 when end ≤ start, and the empty
speaker defaulted to Speaker_0. -/
def buildSeg (idx : ℕ) (prevEnd? : Option ℚ) (e : RawEntry) : Option Seg :=
  if entryText e = "" then Option.none
  else
    Option.some
      { speaker := if entrySpeaker e = "" then "Speaker_0" else entrySpeaker e,
        startT := entryStart idx prevEnd? e,
        endT :=
          if entryEnd (entryStart idx prevEnd? e) (entryText e) e
              ≤ entryStart idx prevEnd? e
          then entryStart idx prevEnd? e + 1/2
          else entryEnd (entryStart idx prevEnd? e) (entryText e) e,
        text := entryText e }

/-- The per-entry loop of normalize_transcription_segments (enumerate with
skipped entries still advancing the index; normalized[-1] tracked as
prevEnd?). -/
def normalizeLoop : ℕ → Option ℚ → List RawEntry → List Seg
  | _, _, [] => []
  | idx, prevEnd?, e :: rest =>
    match buildSeg idx prevEnd? e with
    | Option.none => normalizeLoop (idx + 1) prevEnd? rest
    | Option.some s => s :: normalizeLoop (idx + 1) (Option.some s.endT) rest

/-- Sort key comparison: normalized.sort(key=lambda seg: seg["start_time"]). -/
def segLE (a b : Seg) : Bool := decide (a.startT ≤ b.startT)

/-- Insert x after every element y with le y x (the stable position for the
latest element). -/
def insertLE {α : Type} (le : α → α → Bool) (x : α) : List α → List α
  | [] => [x]
  | y :: r => if le y x then y :: insertLE le x r else x :: y :: r

/-- Python list.sort(key=...) is a stable sort; a stable sort by a total
comparison has a unique result (ordered by the key, ties in original
order), computed here by left-to-right insertion. -/
def stableSort {α : Type} (le : α → α → Bool) (l : List α) : List α :=
  l.foldl (fun acc x => insertLE le x acc) []

/-- The collapsed-segment repair of the overlap-fix loop: if end ≤ start,
push end to start + 0.5 (this is the whole step at idx = 0). -/
def fixHead (s : Seg) : Seg :=
  if s.endT ≤ s.startT then { s with endT := s.startT + 1/2 } else s

/-- One idx > 0 step of the overlap-fix pass: clamp the start up to the
previous end, then repair a collapsed segment. -/
def fixStep (p s : Seg) : Seg :=
  fixHead (if s.startT < p.endT then { s with startT := p.endT } else s)

/-- The idx > 0 part of the overlap-fix loop, threading the previously
fixed segment. -/
def fixFrom (p : Seg) : List Seg → List Seg
  | [] => []
  | s :: rest => fixStep p s :: fixFrom (fixStep p s) rest

/-- The in-place overlap-fix loop of normalize_transcription_segments. -/
def fixOverlaps : List Seg → List Seg
  | [] => []
  | s :: rest => fixHead s :: fixFrom (fixHead s) rest

/-- Python max(seg["end_time"] for seg in l) on a nonempty list
(0 for the empty list, where the source never evaluates it). -/
def maxEnd : List Seg → ℚ
  | [] => 0
  | s :: rest => rest.foldl (fun a t => max a t.endT) s.endT

/-- seg["start_time"] *= ratio; seg["end_time"] *= ratio. -/
def rescaleSeg (r : ℚ) (s : Seg) : Seg :=
  { s with startT := s.startT * r, endT := s.endT * r }

/-- inference.normalize_transcription_segments. -/
def normalize_transcription_segments (raw : List RawEntry)
    (fallback_duration : Option ℚ := Option.none) : List Seg :=
  let normalized := stableSort segLE (normalizeLoop 0 Option.none raw)
  let normalized := fixOverlaps normalized
  match fallback_duration with
  | Option.none => normalized
  | Option.some fd =>
    -- if fallback_duration and fallback_duration > 0 and normalized:
    if fd ≠ 0 ∧ 0 < fd ∧ normalized ≠ [] then
      let me := maxEnd normalized
      if me > fd ∧ me > 0 then normalized.map (rescaleSeg (fd / me))
      else normalized
    else normalized

/-- A normalized diarization span (dict with keys speaker, start, end). -/
structure Span where
  speaker : String
  startT : ℚ
  endT : ℚ
deriving DecidableEq

/-- A raw diarization entry as read by _normalize_speaker_segments. -/
structure RawSpan where
  speaker : PyVal := .none
  start : PyVal := .none
  end_ : PyVal := .none
deriving DecidableEq

/-- Per-entry phase of _normalize_speaker_segments: default speaker, parse
both bounds, drop the span when either is absent or the duration is not
positive. -/
def buildSpan (e : RawSpan) : Option Span :=
  let speaker0 := pyStrip (pyStr (pyOrV e.speaker (.str "Speaker_0")))
  let speaker := if speaker0 = "" then "Speaker_0" else speaker0
  match _safe_parse_time e.start, _safe_parse_time e.end_ with
  | Option.some st, Option.some en =>
    if en ≤ st then Option.none else Option.some ⟨speaker, st, en⟩
  | _, _ => Option.none

/-- Sort key for spans: seg["start"]. -/
def spanLE (a b : Span) : Bool := decide (a.startT ≤ b.startT)

/-- The merge loop of _normalize_speaker_segments: adjacent same-speaker
spans with |prev.end - start| < 0.05 are merged (prev.end := seg.end). -/
def mergeLoop (last : Span) : List Span → List Span
  | [] => [last]
  | s :: rest =>
    if last.speaker = s.speaker ∧ |last.endT - s.startT| < 1/20 then
      mergeLoop { last with endT := s.endT } rest
    else last :: mergeLoop s rest

/-- inference._normalize_speaker_segments. -/
def _normalize_speaker_segments (raw : List RawSpan) : List Span :=
  match stableSort spanLE (raw.filterMap buildSpan) with
  | [] => []
  | s :: rest => mergeLoop s rest

/-- inference._single_speaker_segments. -/
def _single_speaker_segments (duration : ℚ) : List Span :=
  [⟨"Speaker_0", 0, max duration (1/10)⟩]

/-- inference._overlap. -/
def _overlap (aStart aEnd bStart bEnd : ℚ) : ℚ :=
  max 0 (min aEnd bEnd - max aStart bStart)

/-- math.isclose with its defaults rel_tol=1e-9, abs_tol=0.0, exactly on ℚ. -/
def mathIsClose (a b : ℚ) : Prop :=
  |a - b| ≤ (1 / 1000000000) * max |a| |b|

instance (a b : ℚ) : Decidable (mathIsClose a b) := by
  unfold mathIsClose; infer_instance

/-- dist < best_distance where best_distance may still be float("inf"). -/
def distLT (d : ℚ) : Option ℚ → Prop
  | Option.none => True
  | Option.some b => d < b

instance (d : ℚ) (b : Option ℚ) : Decidable (distLT d b) := by
  cases b <;> unfold distLT <;> infer_instance

/-- The scan loop of _pick_best_speaker, carrying (best_speaker,
best_overlap, best_distance); best_distance starts as infinity (none); a
span wins when its overlap is strictly larger, or ties within
math.isclose and its center is strictly closer to the segment center. -/
def pickLoop (segStart segEnd : ℚ) :
    String → ℚ → Option ℚ → List Span → String
  | sp, _, _, [] => sp
  | sp, bov, bdist, t :: rest =>
    if _overlap segStart segEnd t.startT t.endT > bov ∨
        (mathIsClose (_overlap segStart segEnd t.startT t.endT) bov ∧
          distLT |(segStart + segEnd) / 2 - (t.startT + t.endT) / 2| bdist) then
      pickLoop segStart segEnd t.speaker
        (_overlap segStart segEnd t.startT t.endT)
        (Option.some |(segStart + segEnd) / 2 - (t.startT + t.endT) / 2|) rest
    else
      pickLoop segStart segEnd sp bov bdist rest

/-- inference._pick_best_speaker. -/
def _pick_best_speaker (segStart segEnd : ℚ) (spans : List Span) : String :=
  pickLoop segStart segEnd "Speaker_0" (-1) Option.none spans

/-- inference.align_transcription_with_speakers. -/
def align_transcription_with_speakers (tr : List RawEntry)
    (sp : List RawSpan) : List Seg :=
  let nt := normalize_transcription_segments tr Option.none
  if nt = [] then []
  else
    let ns0 := _normalize_speaker_segments sp
    let ns := if ns0 = [] then _single_speaker_segments (maxEnd nt) else ns0
    nt.map (fun s =>
      { s with speaker := _pick_best_speaker s.startT s.endT ns })

/-- The per-segment clamping of _finalize_segments: nonnegative start,
minimum width 0.05 measured from the clamped start, then (only for positive
duration) cap both bounds at the duration. -/
def clampSeg (duration : ℚ) (s : Seg) : Seg :=
  if 0 < duration then
    { s with startT := min (max 0 s.startT) duration,
             endT := min (max (max 0 s.startT + 1/20) s.endT) duration }
  else
    { s with startT := max 0 s.startT,
             endT := max (max 0 s.startT + 1/20) s.endT }

/-- The idx > 0 part of the finalize loop: clamp, then push the start up to
the previous end, shrinking a collapsed segment to at most 0.1 width capped
by the duration (Python `duration or seg.start + 0.1`). -/
def finalizeStep (duration : ℚ) (p s : Seg) : Seg :=
  if (clampSeg duration s).startT < p.endT then
    { clampSeg duration s with
      startT := p.endT,
      endT :=
        if (clampSeg duration s).endT ≤ p.endT then
          min (p.endT + 1/10) (if duration ≠ 0 then duration else p.endT + 1/10)
        else (clampSeg duration s).endT }
  else clampSeg duration s

/-- The finalize loop over the tail, threading the previous (already
updated) segment. -/
def finalizeFrom (duration : ℚ) (p : Seg) : List Seg → List Seg
  | [] => []
  | s :: rest =>
    finalizeStep duration p s :: finalizeFrom duration (finalizeStep duration p s) rest

/-- model_loader.ModelLoader._finalize_segments. -/
def _finalize_segments (segments : List RawEntry) (duration : ℚ) : List Seg :=
  if segments = [] then []
  else
    match normalize_transcription_segments segments (Option.some duration) with
    | [] => []
    | s :: rest => clampSeg duration s :: finalizeFrom duration (clampSeg duration s) rest

/-- Convert a normalized segment back to the dict shape it carries
(keys speaker, start_time, end_time, text), for re-normalization. -/
def segToRaw (s : Seg) : RawEntry :=
  { text := .str s.text, speaker := .str s.speaker,
    start_time := .num s.startT, end_time := .num s.endT }

/-- A torch dtype as selected by the loader. -/
inductive Dtype where
  | float16 : Dtype
  | float32 : Dtype
deriving DecidableEq

/-- The kwargs _build_model_load_kwargs emits for from_pretrained:
quantization_config=BitsAndBytesConfig(load_in_8bit=True) presence,
device_map="auto" presence, and the torch_dtype. -/
structure LoadKwargs where
  quantizationConfig : Bool := false
  deviceMapAuto : Bool := false
  torchDtype : Option Dtype := Option.none
deriving DecidableEq

/-- model_loader.ModelLoader._torch_dtype_for_precision. -/
def _torch_dtype_for_precision (device precision : String) : Dtype :=
  if precision = "fp16" ∧ device = "cuda" then Dtype.float16 else Dtype.float32

/-- model_loader.ModelLoader._build_model_load_kwargs.  The availability of
the transformers int8 quantization path (the BitsAndBytesConfig import and
construction succeeding) is an environment fact, passed as quantAvailable. -/
def _build_model_load_kwargs (requested device : String)
    (quantAvailable : Bool) : LoadKwargs × String :=
  let (kwargs, actual) :=
    if requested = "int8" then
      if device ≠ "cuda" then (({} : LoadKwargs), "fp32")
      else if quantAvailable then
        ({ quantizationConfig := true, deviceMapAuto := true }, "int8")
      else (({} : LoadKwargs), "fp16")
    else (({} : LoadKwargs), requested)
  if actual ≠ "int8" then
    ({ kwargs with torchDtype := Option.some (_torch_dtype_for_precision device actual) },
     actual)
  else (kwargs, actual)

/-- The numeric precision a load performed with these kwargs effectively
runs at: int8 when the quantization config is attached, otherwise read off
the torch dtype. -/
def effectivePrecision (k : LoadKwargs) : String :=
  if k.quantizationConfig then "int8"
  else
    match k.torchDtype with
    | Option.some Dtype.float16 => "fp16"
    | _ => "fp32"

/-- Modelled from the spec: the precision-degradation ladder of §4.4 —
int8 degrades to fp32 without a device and to fp16 when the quantization
path is unavailable; fp16 degrades to fp32 without a device. -/
def specPrecisionLadder (requested : String)
    (deviceAvailable quantAvailable : Bool) : String :=
  if requested = "int8" then
    if ¬ deviceAvailable then "fp32"
    else if quantAvailable then "int8"
    else "fp16"
  else if requested = "fp16" then
    if deviceAvailable then "fp16" else "fp32"
  else requested

/-- model_loader.ModelLoader._is_vibevoice_asr_model. -/
def _is_vibevoice_asr_model (modelName : String) : Bool :=
  pyIn "vibevoice-asr" (pyLower modelName)

/-- model_loader: the manual setup command constant. -/
def MANUAL_SETUP_COMMAND : String :=
  "powershell -NoProfile -ExecutionPolicy Bypass -File \"setup-vibevoice.ps1\""

/-- model_loader: the pinned runtime archive constant. -/
def VIBEVOICE_ARCHIVE_URL : String :=
  "https://github.com/microsoft/VibeVoice/archive/1807b858d4f7dffdd286249a01616c243e488c9e.zip"

/-- model_loader.ModelLoader._format_vibevoice_runtime_error. -/
def _format_vibevoice_runtime_error (modelName runtimeDetails : String)
    (lastNativeError : Option String) : String :=
  String.intercalate "\n"
    (["VibeVoice-ASR runtime is unavailable or incompatible.",
      "Model: " ++ modelName]
     ++ (if runtimeDetails ≠ "" then [runtimeDetails] else [])
     ++ (match lastNativeError with
         | Option.some e => ["Last native loader error: " ++ e]
         | Option.none => [])
     ++ ["Run setup-vibevoice.ps1 to install or repair dependencies.",
         "Transformers fallback is disabled for microsoft/VibeVoice-ASR until native runtime modules are healthy.",
         "Run manually:",
         MANUAL_SETUP_COMMAND,
         "Expected pinned runtime source: " ++ VIBEVOICE_ARCHIVE_URL])

/-- External facts the loader's control flow branches on: the runtime
status probe, the native imports, and the outcomes of the external
from_pretrained calls (none = success, some msg = raised with str(exc) =
msg). -/
structure LoaderEnv where
  runtimeStatusOk : Bool := true
  runtimeDetails : String := ""
  nativeImportOk : Bool := true
  nativeImportError : String := ""
  processorError : Option String := Option.none
  modelError : Option String := Option.none
  modelRetryError : Option String := Option.none
  fallbackProcessorError : Option String := Option.none
  causalLMError : Option String := Option.none
  seq2seqError : Option String := Option.none
  autoModelError : Option String := Option.none
deriving DecidableEq

/-- Result of _load_vibevoice_native: False (imports unavailable), a raised
RuntimeError, or success. -/
inductive NativeResult where
  | unavailable : NativeResult
  | raised : String → NativeResult
  | ok : NativeResult
deriving DecidableEq

/-- model_loader.ModelLoader._load_vibevoice_native: import probe, processor
construction, then model construction with one bounded retry when the error
is the known non-JSON-serializable dtype issue and torch_dtype was passed. -/
def _load_vibevoice_native (env : LoaderEnv) (hasTorchDtype : Bool) : NativeResult :=
  if ¬ env.nativeImportOk then NativeResult.unavailable
  else
    match env.processorError with
    | Option.some e =>
      NativeResult.raised ("Failed to initialize VibeVoice ASR processor: " ++ e)
    | Option.none =>
      match env.modelError with
      | Option.none => NativeResult.ok
      | Option.some e =>
        if (pyIn "dtype" (pyLower e) && pyIn "not json serializable" (pyLower e))
            && hasTorchDtype then
          match env.modelRetryError with
          | Option.none => NativeResult.ok
          | Option.some e2 =>
            NativeResult.raised ("Failed to initialize VibeVoice ASR model: " ++ e2)
        else NativeResult.raised ("Failed to initialize VibeVoice ASR model: " ++ e)

/-- model_loader.ModelLoader._load_transformers_fallback: processor, then
the three Auto loaders in fixed order, first success wins. -/
def _load_transformers_fallback (env : LoaderEnv) : NativeResult :=
  match env.fallbackProcessorError with
  | Option.some e => NativeResult.raised e
  | Option.none =>
    if env.causalLMError = Option.none then NativeResult.ok
    else if env.seq2seqError = Option.none then NativeResult.ok
    else if env.autoModelError = Option.none then NativeResult.ok
    else
      NativeResult.raised
        ("Failed to load model with all fallback loaders" ++
          (match env.autoModelError with
           | Option.some le => ": " ++ le
           | Option.none => ""))

/-- Outcome of ModelLoader.load_model: loaded via a backend, or raised with
a message. -/
inductive LoadOutcome where
  | ok : String → LoadOutcome
  | error : String → LoadOutcome
deriving DecidableEq

/-- load_model's outcome together with whether the transformers fallback
loader was ever entered. -/
structure LoadResult where
  outcome : LoadOutcome
  fallbackAttempted : Bool
deriving DecidableEq

/-- model_loader.ModelLoader.load_model control flow: kwargs are built
first (their torch_dtype presence feeds the native loader's dtype retry);
for the VibeVoice-ASR family an unhealthy runtime status raises before any
load attempt, and a native import failure raises instead of falling back;
only non-family models reach _load_transformers_fallback.  runtime_details
is only nonempty for the family (it was filled by the status probe). -/
def load_model (modelName requested device : String)
    (quantAvailable : Bool) (env : LoaderEnv) : LoadResult :=
  if _is_vibevoice_asr_model modelName ∧ ¬ env.runtimeStatusOk then
    { outcome := LoadOutcome.error
        (_format_vibevoice_runtime_error modelName env.runtimeDetails Option.none),
      fallbackAttempted := false }
  else
    match _load_vibevoice_native env
        (_build_model_load_kwargs requested device quantAvailable).1.torchDtype.isSome with
    | NativeResult.ok => { outcome := LoadOutcome.ok "vibevoice-native", fallbackAttempted := false }
    | NativeResult.raised msg =>
      { outcome := LoadOutcome.error msg, fallbackAttempted := false }
    | NativeResult.unavailable =>
      if _is_vibevoice_asr_model modelName then
        { outcome := LoadOutcome.error
            (_format_vibevoice_runtime_error modelName env.runtimeDetails
              (Option.some ("native import failed: " ++ env.nativeImportError))),
          fallbackAttempted := false }
      else
        match _load_transformers_fallback env with
        | NativeResult.ok =>
          { outcome := LoadOutcome.ok "transformers", fallbackAttempted := true }
        | NativeResult.raised msg =>
          { outcome := LoadOutcome.error msg, fallbackAttempted := true }
        | NativeResult.unavailable =>
          { outcome := LoadOutcome.error "", fallbackAttempted := true }

/-- worker_once.main's exception dispatch around load/transcribe: exit 11
when the message mentions the known model-init markers, else exit 20. -/
def workerTranscribeExitCode (message : String) : ℕ :=
  if pyIn "initialize VibeVoice ASR model" message
      || pyIn "Failed to load model" message then 11
  else 20

/-- The exit code the worker produces from a load_model outcome (0 stands
for continuing into transcription). -/
def workerLoadExit (r : LoadResult) : ℕ :=
  match r.outcome with
  | LoadOutcome.ok _ => 0
  | LoadOutcome.error m => workerTranscribeExitCode m

/-- The fields worker_once.main reads from the request object. -/
structure WorkerRequest where
  audio_path : PyVal := .none
  precision : PyVal := .none
  language : PyVal := .none
  analysis_backend : PyVal := .none
deriving DecidableEq

/-- The worker's stdin after _load_request's three checks: blank input,
invalid JSON (with the decoder's message), a non-object payload, or an
object together with whether the named audio file exists on disk. -/
inductive WorkerStdin where
  | blank : WorkerStdin
  | badJson : String → WorkerStdin
  | nonObject : WorkerStdin
  | obj : WorkerRequest → Bool → WorkerStdin
deriving DecidableEq

/-- The JSON payload _fail writes to stderr. -/
structure ErrorPayload where
  status : String
  error : String
deriving DecidableEq

/-- Result of the worker's validation region (everything before the model
runtime import): a _fail (exit code plus stderr payload), or proceeding to
model work with the validated audio_path/precision/language/backend. -/
inductive WorkerPhase1 where
  | fail : ℕ → ErrorPayload → WorkerPhase1
  | proceed : String → String → String → String → WorkerPhase1
deriving DecidableEq

/-- worker_once._fail: error payload on stderr, then sys.exit(code). -/
def workerFail (code : ℕ) (msg : String) : WorkerPhase1 :=
  WorkerPhase1.fail code { status := "error", error := msg }

/-- The backend normalization worker_once applies:
str(request.get("analysis_backend") or "vibevoice").strip().lower(). -/
def workerBackend (r : WorkerRequest) : String :=
  pyLower (pyStrip (pyStr (pyOrV r.analysis_backend (.str "vibevoice"))))

/-- worker_once: _load_request followed by main's validation region, up to
(but not including) the model-runtime import. -/
def workerValidate : WorkerStdin → WorkerPhase1
  | WorkerStdin.blank => workerFail 14 "Worker request is empty"
  | WorkerStdin.badJson exc => workerFail 14 ("Invalid worker request JSON: " ++ exc)
  | WorkerStdin.nonObject => workerFail 14 "Worker request must be a JSON object"
  | WorkerStdin.obj r audioExists =>
    let audioPath := pyStrip (pyStr (pyOrV r.audio_path (.str "")))
    if audioPath = "" then workerFail 14 "audio_path is required"
    else
      let precision := pyLower (pyStrip (pyStr (pyOrV r.precision (.str "fp16"))))
      if precision ≠ "fp16" ∧ precision ≠ "int8" then
        workerFail 14 ("Unsupported precision: " ++ precision)
      else
        let language0 := pyStrip (pyStr (pyOrV r.language (.str "auto")))
        let language := if language0 = "" then "auto" else language0
        let backend := workerBackend r
        if backend ≠ "vibevoice" then
          workerFail 14 ("Unsupported analysis backend: " ++ backend)
        else if ¬ audioExists then
          workerFail 14 ("Audio file not found: " ++ audioPath)
        else WorkerPhase1.proceed audioPath precision language backend

/-- Adjacent non-overlap relation on segments. -/
def ovRel (a b : Seg) : Prop := a.endT ≤ b.startT

lemma fixHead_startT (s : Seg) : (fixHead s).startT = s.startT := by
  unfold fixHead; split_ifs <;> rfl

lemma fixHead_speaker (s : Seg) : (fixHead s).speaker = s.speaker := by
  unfold fixHead; split_ifs <;> rfl

lemma fixHead_text (s : Seg) : (fixHead s).text = s.text := by
  unfold fixHead; split_ifs <;> rfl

lemma fixHead_lt (s : Seg) : (fixHead s).startT < (fixHead s).endT := by
  unfold fixHead
  split_ifs with h
  · simp
  · simpa using not_le.mp h

lemma fixHead_eq_self (s : Seg) (h : s.startT < s.endT) : fixHead s = s := by
  unfold fixHead
  rw [if_neg (not_le.mpr h)]

lemma fixStep_startT (p s : Seg) :
    (fixStep p s).startT = if s.startT < p.endT then p.endT else s.startT := by
  unfold fixStep
  rw [fixHead_startT]
  split_ifs <;> rfl

lemma fixStep_le (p s : Seg) : p.endT ≤ (fixStep p s).startT := by
  rw [fixStep_startT]
  split_ifs with h
  · exact le_refl _
  · exact le_of_not_lt h

lemma fixStep_lt (p s : Seg) : (fixStep p s).startT < (fixStep p s).endT :=
  fixHead_lt _

lemma fixStep_speaker (p s : Seg) : (fixStep p s).speaker = s.speaker := by
  unfold fixStep
  rw [fixHead_speaker]
  split_ifs <;> rfl

lemma fixStep_text (p s : Seg) : (fixStep p s).text = s.text := by
  unfold fixStep
  rw [fixHead_text]
  split_ifs <;> rfl

lemma fixStep_eq_self (p s : Seg) (h1 : p.endT ≤ s.startT) (h2 : s.startT < s.endT) :
    fixStep p s = s := by
  unfold fixStep
  rw [if_neg (not_lt.mpr h1)]
  exact fixHead_eq_self s h2

lemma fixFrom_chain : ∀ (l : List Seg) (p : Seg),
    List.Chain' ovRel (p :: fixFrom p l) ∧
      ∀ s ∈ fixFrom p l, s.startT < s.endT := by
  intro l
  induction l with
  | nil => intro p; exact ⟨List.chain'_singleton p, by simp [fixFrom]⟩
  | cons s rest ih =>
    intro p
    have hmain := ih (fixStep p s)
    constructor
    · exact List.chain'_cons.mpr ⟨fixStep_le p s, hmain.1⟩
    · intro t ht
      rcases List.mem_cons.mp ht with h | h
      · subst h; exact fixStep_lt p s
      · exact hmain.2 t h

lemma fixOverlaps_chain (l : List Seg) : List.Chain' ovRel (fixOverlaps l) := by
  cases l with
  | nil => exact List.chain'_nil
  | cons s rest => exact (fixFrom_chain rest (fixHead s)).1

lemma fixOverlaps_width (l : List Seg) :
    ∀ s ∈ fixOverlaps l, s.startT < s.endT := by
  cases l with
  | nil => simp [fixOverlaps]
  | cons s rest =>
    intro t ht
    rcases List.mem_cons.mp ht with h | h
    · subst h; exact fixHead_lt s
    · exact (fixFrom_chain rest (fixHead s)).2 t h

lemma rescale_chain (r : ℚ) (hr : 0 ≤ r) (l : List Seg)
    (h : List.Chain' ovRel l) : List.Chain' ovRel (l.map (rescaleSeg r)) :=
  List.chain'_map_of_chain' (rescaleSeg r)
    (fun _ _ hab => mul_le_mul_of_nonneg_right hab hr) h

lemma rescale_width (r : ℚ) (hr : 0 < r) (l : List Seg)
    (h : ∀ s ∈ l, s.startT < s.endT) :
    ∀ s ∈ l.map (rescaleSeg r), s.startT < s.endT := by
  intro t ht
  rcases List.mem_map.mp ht with ⟨u, hu, rfl⟩
  exact mul_lt_mul_of_pos_right (h u hu) hr

lemma normalize_invariant (raw : List RawEntry) (fd : Option ℚ) :
    (∀ s ∈ normalize_transcription_segments raw fd, s.startT < s.endT) ∧
      List.Chain' ovRel (normalize_transcription_segments raw fd) := by
  unfold normalize_transcription_segments
  cases fd with
  | none => exact ⟨fixOverlaps_width _, fixOverlaps_chain _⟩
  | some d =>
    simp only
    split_ifs with h1 h2
    · have hr : 0 < d / maxEnd (fixOverlaps (stableSort segLE (normalizeLoop 0 Option.none raw))) :=
        div_pos h1.2.1 h2.2
      exact ⟨rescale_width _ hr _ (fixOverlaps_width _),
        rescale_chain _ (le_of_lt hr) _ (fixOverlaps_chain _)⟩
    · exact ⟨fixOverlaps_width _, fixOverlaps_chain _⟩
    · exact ⟨fixOverlaps_width _, fixOverlaps_chain _⟩

lemma chain_startLE {l : List Seg} (hw : ∀ s ∈ l, s.startT < s.endT)
    (hc : List.Chain' ovRel l) :
    List.Chain' (fun a b : Seg => a.startT ≤ b.startT) l := by
  induction l with
  | nil => exact List.chain'_nil
  | cons a rest ih =>
    cases rest with
    | nil => exact List.chain'_singleton a
    | cons b rest2 =>
      rw [List.chain'_cons] at hc ⊢
      refine ⟨?_, ih (fun s hs => hw s (List.mem_cons_of_mem _ hs)) hc.2⟩
      exact le_of_lt (lt_of_lt_of_le (hw a (List.mem_cons_self _ _)) hc.1)

/-- C1: for every list of raw transcription entries and every optional
fallback duration, normalize_transcription_segments returns a list in which
every segment has end_time strictly greater than start_time and every
adjacent pair satisfies earlier end_time ≤ later start_time (sorted by
start_time and overlap-free). -/
theorem normalize_segments_sorted_nonoverlapping (raw : List RawEntry)
    (fd : Option ℚ) :
    (∀ s ∈ normalize_transcription_segments raw fd, s.startT < s.endT) ∧
      List.Chain' (fun a b : Seg => a.endT ≤ b.startT)
        (normalize_transcription_segments raw fd) ∧
      List.Chain' (fun a b : Seg => a.startT ≤ b.startT)
        (normalize_transcription_segments raw fd) := by
  obtain ⟨h1, h2⟩ := normalize_invariant raw fd
  exact ⟨h1, h2, chain_startLE h1 h2⟩

lemma foldl_max_rescale (r : ℚ) (hr : 0 ≤ r) :
    ∀ (l : List Seg) (a : ℚ),
      (l.map (rescaleSeg r)).foldl (fun acc t => max acc t.endT) (a * r)
        = (l.foldl (fun acc t => max acc t.endT) a) * r := by
  intro l
  induction l with
  | nil => intro a; rfl
  | cons s rest ih =>
    intro a
    have hm : max (a * r) (s.endT * r) = (max a s.endT) * r :=
      (max_mul_of_nonneg _ _ hr).symm
    simp only [List.map_cons, List.foldl_cons, rescaleSeg, hm, ih]

lemma maxEnd_rescale (r : ℚ) (hr : 0 ≤ r) (l : List Seg) :
    maxEnd (l.map (rescaleSeg r)) = maxEnd l * r := by
  cases l with
  | nil => simp [maxEnd]
  | cons s rest =>
    show (rest.map (rescaleSeg r)).foldl (fun acc t => max acc t.endT) (s.endT * r)
        = (rest.foldl (fun acc t => max acc t.endT) s.endT) * r
    exact foldl_max_rescale r hr rest s.endT

/-- C5: with a positive fallback duration, if the maximum end time of the
normalized list exceeds it, every bound is multiplied by
fallbackDuration / maxEnd (so the maximum end becomes exactly the fallback
duration in exact arithmetic) and the list stays sorted by start time;
otherwise no rescaling is applied. -/
theorem normalize_rescaling_compresses (raw : List RawEntry) (fd : ℚ)
    (hfd : 0 < fd) :
    (fd < maxEnd (normalize_transcription_segments raw Option.none) →
      normalize_transcription_segments raw (Option.some fd)
        = (normalize_transcription_segments raw Option.none).map
            (rescaleSeg (fd / maxEnd (normalize_transcription_segments raw Option.none)))
      ∧ maxEnd (normalize_transcription_segments raw (Option.some fd)) = fd
      ∧ List.Chain' (fun a b : Seg => a.startT ≤ b.startT)
          (normalize_transcription_segments raw (Option.some fd)))
    ∧ (maxEnd (normalize_transcription_segments raw Option.none) ≤ fd →
        normalize_transcription_segments raw (Option.some fd)
          = normalize_transcription_segments raw Option.none) := by
  have hbase : normalize_transcription_segments raw Option.none
      = fixOverlaps (stableSort segLE (normalizeLoop 0 Option.none raw)) := rfl
  constructor
  · intro hgt
    have hne : fixOverlaps (stableSort segLE (normalizeLoop 0 Option.none raw)) ≠ [] := by
      intro h
      rw [hbase, h] at hgt
      simp only [maxEnd] at hgt
      linarith
    have hme : 0 < maxEnd (normalize_transcription_segments raw Option.none) :=
      lt_trans hfd hgt
    have hres : normalize_transcription_segments raw (Option.some fd)
        = (normalize_transcription_segments raw Option.none).map
            (rescaleSeg (fd / maxEnd (normalize_transcription_segments raw Option.none))) := by
      show (if fd ≠ 0 ∧ 0 < fd ∧ fixOverlaps (stableSort segLE (normalizeLoop 0 Option.none raw)) ≠ []
          then _ else _) = _
      rw [if_pos ⟨hfd.ne', hfd, hne⟩]
      rw [hbase] at hgt hme ⊢
      rw [if_pos ⟨hgt, hme⟩]
    refine ⟨hres, ?_, ?_⟩
    · rw [hres, maxEnd_rescale _ (le_of_lt (div_pos hfd hme))]
      field_simp
    · obtain ⟨h1, h2⟩ := normalize_invariant raw (Option.some fd)
      exact chain_startLE h1 h2
  · intro hle
    by_cases hne : fixOverlaps (stableSort segLE (normalizeLoop 0 Option.none raw)) = []
    · show (if fd ≠ 0 ∧ 0 < fd ∧ fixOverlaps (stableSort segLE (normalizeLoop 0 Option.none raw)) ≠ []
          then _ else _) = _
      rw [if_neg (by simp [hne])]
      exact hbase.symm ▸ rfl
    · show (if fd ≠ 0 ∧ 0 < fd ∧ fixOverlaps (stableSort segLE (normalizeLoop 0 Option.none raw)) ≠ []
          then _ else _) = _
      rw [if_pos ⟨hfd.ne', hfd, hne⟩]
      rw [hbase] at hle
      rw [if_neg (by intro h; exact absurd h.1 (not_lt.mpr hle))]
      exact hbase.symm ▸ rfl

/-- Concrete input on which the C5 rescaling branch fires. -/
def rawC5 : List RawEntry :=
  [{ text := .str "a", start_time := .num 1, end_time := .num 2 },
   { text := .str "b", start_time := .num 2, end_time := .num 3 }]

/-- Witness for C5 at a concrete input: maxEnd 3 exceeds fallback 1 and is
compressed to exactly 1. -/
theorem normalize_rescaling_compresses_witness :
    maxEnd (normalize_transcription_segments rawC5 (Option.some 1)) = 1 :=
  ((normalize_rescaling_compresses rawC5 1 (by norm_num)).1 (by decide)).2.1

/-- Bounds established by the per-segment clamping, for positive duration. -/
lemma clampSeg_bounds (d : ℚ) (s : Seg) (hd : 0 < d) :
    0 ≤ (clampSeg d s).startT ∧ (clampSeg d s).startT ≤ (clampSeg d s).endT ∧
      (clampSeg d s).endT ≤ d := by
  unfold clampSeg
  rw [if_pos hd]
  refine ⟨le_min (le_max_left 0 s.startT) (le_of_lt hd), ?_, min_le_right _ _⟩
  exact min_le_min (le_trans (by linarith) (le_max_left _ s.endT)) (le_refl d)

lemma finalizeStep_bounds (d : ℚ) (p s : Seg) (hd : 0 < d)
    (hp : 0 ≤ p.startT ∧ p.startT ≤ p.endT ∧ p.endT ≤ d) :
    (0 ≤ (finalizeStep d p s).startT ∧
      (finalizeStep d p s).startT ≤ (finalizeStep d p s).endT ∧
      (finalizeStep d p s).endT ≤ d) ∧
    p.endT ≤ (finalizeStep d p s).startT := by
  obtain ⟨hc0, hc1, hc2⟩ := clampSeg_bounds d s hd
  unfold finalizeStep
  split_ifs with h1 h2 hd0
  · -- pushed start, collapsed end repaired, duration nonzero
    dsimp only
    refine ⟨⟨by linarith, le_min (by linarith) (by linarith), min_le_right _ _⟩, le_refl _⟩
  · -- duration = 0 is impossible here
    exact absurd (not_not.mp hd0) hd.ne'
  · -- pushed start, end kept
    dsimp only
    exact ⟨⟨by linarith, le_of_lt (not_le.mp h2), hc2⟩, le_refl _⟩
  · -- no push
    exact ⟨⟨hc0, hc1, hc2⟩, le_of_not_lt h1⟩

lemma finalizeFrom_inv (d : ℚ) (hd : 0 < d) :
    ∀ (l : List Seg) (p : Seg),
      (0 ≤ p.startT ∧ p.startT ≤ p.endT ∧ p.endT ≤ d) →
      (∀ s ∈ finalizeFrom d p l,
        0 ≤ s.startT ∧ s.startT ≤ s.endT ∧ s.endT ≤ d) ∧
      List.Chain' ovRel (p :: finalizeFrom d p l) := by
  intro l
  induction l with
  | nil =>
    intro p _
    exact ⟨by simp [finalizeFrom], List.chain'_singleton p⟩
  | cons s rest ih =>
    intro p hp
    obtain ⟨hstep, hle⟩ := finalizeStep_bounds d p s hd hp
    obtain ⟨hmem, hchain⟩ := ih (finalizeStep d p s) hstep
    refine ⟨?_, List.chain'_cons.mpr ⟨hle, hchain⟩⟩
    intro t ht
    rcases List.mem_cons.mp ht with h | h
    · subst h; exact hstep
    · exact hmem t h

/-- C2 (amended): for every segment list and every positive duration,
_finalize_segments returns segments whose bounds all lie in [0, duration]
with end_time ≥ start_time, and the list is monotonically non-overlapping.
(The 0.05s minimum width holds only at the per-segment clamping step; the
subsequent overlap push can narrow a segment below it.) -/
theorem finalize_segments_bounded (segments : List RawEntry) (d : ℚ)
    (hd : 0 < d) :
    (∀ s ∈ _finalize_segments segments d,
      0 ≤ s.startT ∧ s.startT ≤ s.endT ∧ s.endT ≤ d) ∧
    List.Chain' (fun a b : Seg => a.endT ≤ b.startT)
      (_finalize_segments segments d) := by
  unfold _finalize_segments
  split_ifs with hempty
  · simp
  · cases hn : normalize_transcription_segments segments (Option.some d) with
    | nil => simp
    | cons s rest =>
      obtain ⟨hmem, hchain⟩ :=
        finalizeFrom_inv d hd rest (clampSeg d s) (clampSeg_bounds d s hd)
      refine ⟨?_, hchain⟩
      intro t ht
      rcases List.mem_cons.mp ht with h | h
      · subst h; exact clampSeg_bounds d s hd
      · exact hmem t h

/-- Concrete input refuting the C2 minimum-width guarantee: two short
adjacent segments; the first is widened to 0.05s and the push then leaves
the second only 0.01s wide. -/
def rawC2 : List RawEntry :=
  [{ text := .str "a", start_time := .num (1/100), end_time := .num (1/50) },
   { text := .str "b", start_time := .num (1/50), end_time := .num (3/100) }]

/-- Counterexample for C2 as stated: on rawC2 with duration 10 the final
list contains a segment of width 1/100 < 1/20 (0.05s). -/
theorem finalize_segments_minwidth_counterexample :
    _finalize_segments rawC2 10 =
      [{ speaker := "Speaker_0", startT := 1/100, endT := 3/50, text := "a" },
       { speaker := "Speaker_0", startT := 3/50, endT := 7/100, text := "b" }] ∧
    (∃ s ∈ _finalize_segments rawC2 10, s.endT - s.startT < 1/20) := by
  with_unfolding_all decide

/-- Witness for the amended C2 at a concrete input. -/
theorem finalize_segments_bounded_witness :
    List.Chain' (fun a b : Seg => a.endT ≤ b.startT) (_finalize_segments rawC2 10) :=
  (finalize_segments_bounded rawC2 10 (by norm_num)).2

/-- C3: precision resolution is a total deterministic function of
(requested precision, device availability, int8-quantization availability);
for requested fp16/int8 it agrees pointwise with the spec ladder: int8
resolves to fp32 with no accelerator and to fp16 when the quantization path
is unavailable; fp16 resolves to fp32 with no accelerator. -/
theorem precision_ladder_total (req : String) (dev quant : Bool)
    (hreq : req = "fp16" ∨ req = "int8") :
    effectivePrecision
        (_build_model_load_kwargs req (if dev then "cuda" else "cpu") quant).1
      = specPrecisionLadder req dev quant := by
  rcases hreq with h | h <;> subst h <;> cases dev <;> cases quant <;> rfl

/-- Witness for C3: requested int8 with no accelerator device resolves to
fp32. -/
theorem precision_ladder_total_witness :
    effectivePrecision
        (_build_model_load_kwargs "int8" (if false then "cuda" else "cpu") true).1
      = "fp32" :=
  (precision_ladder_total "int8" false true (Or.inr rfl)).trans rfl

/-- Counterexample for C4 as stated: the entry has start_time present and
parsing to 0.0, yet extraction falls through to the later "start" alias
(5.0) because Python `or` treats 0.0 as falsy; the normalized segment
starts at 5, not 0. -/
theorem alias_extraction_counterexample :
    extractTime (PyVal.num 0) (PyVal.num 5) PyVal.none PyVal.none = Option.some 5 ∧
    normalize_transcription_segments
        [{ text := .str "hi", start_time := .num 0, start := .num 5 }] Option.none
      = [{ speaker := "Speaker_0", startT := 5, endT := 28/5, text := "hi" }] ∧
    (5 : ℚ) ≠ 0 := by
  with_unfolding_all decide

/-- C4 (amended): extraction applies the parser to the aliased keys in
order and the first truthy (parsed and nonzero) value wins; a parsed 0.0
falls through, and when no alias yields a truthy value the result is
whatever the last alias parsed to (possibly 0.0, possibly absent — in the
latter case the missing-time fallback policy applies). -/
theorem alias_extraction_first_truthy (a b c d : PyVal) :
    extractTime a b c d =
      match (([_safe_parse_time a, _safe_parse_time b, _safe_parse_time c,
          _safe_parse_time d] : List (Option ℚ)).find?
            (fun p => match p with
              | Option.some v => decide (v ≠ 0)
              | Option.none => false)) with
      | Option.some v => v
      | Option.none => _safe_parse_time d := by
  have key : ∀ (ps : List (Option ℚ)) (dflt : Option ℚ),
      ps.foldr pyOrT dflt =
        match (ps ++ [dflt]).find? (fun p => match p with
          | Option.some v => decide (v ≠ 0)
          | Option.none => false) with
        | Option.some v => v
        | Option.none => dflt := by
    intro ps
    induction ps with
    | nil =>
      intro dflt
      cases dflt with
      | none => rfl
      | some v =>
        by_cases hv : v = 0
        · subst hv; simp [List.find?]
        · simp [List.find?, hv]
    | cons x rest ih =>
      intro dflt
      cases x with
      | none => simpa [pyOrT, List.find?] using ih dflt
      | some v =>
        by_cases hv : v = 0
        · subst hv; simpa [pyOrT, List.find?] using ih dflt
        · simp [pyOrT, hv, List.find?]
  have h := key [_safe_parse_time a, _safe_parse_time b, _safe_parse_time c]
    (_safe_parse_time d)
  simpa [extractTime, List.foldr] using h

/-- C9: the time parser is total — on every value it returns either absent
or a parsed number (the embedding is a total function, so it never
raises) — and numeric input passes through unchanged. -/
theorem time_parser_total_idempotent :
    (∀ q : ℚ, _safe_parse_time (PyVal.num q) = Option.some q) ∧
    (∀ s : String, _safe_parse_time (PyVal.str s) = Option.none ∨
      ∃ q : ℚ, _safe_parse_time (PyVal.str s) = Option.some q) ∧
    _safe_parse_time PyVal.none = Option.none := by
  refine ⟨fun q => rfl, fun s => ?_, rfl⟩
  cases h : _safe_parse_time (PyVal.str s) with
  | none => exact Or.inl rfl
  | some q => exact Or.inr ⟨q, rfl⟩

/-- C8: every worker input either fails validation with exit code 14 and an
error payload on stderr — this covers empty input, bad JSON, non-object
payloads, missing audio_path, unsupported precision, a non-"vibevoice"
analysis backend and a missing audio file — or it is an object whose
normalized backend equals "vibevoice" and proceeds to the model stage; the
model runtime is only imported after a proceed, so no failing request ever
attempts a model load. -/
theorem worker_validation_rejects (inp : WorkerStdin) :
    (∃ pay, workerValidate inp = WorkerPhase1.fail 14 pay ∧ pay.status = "error") ∨
    (∃ r ex a p l, inp = WorkerStdin.obj r ex ∧ workerBackend r = "vibevoice" ∧
      workerValidate inp = WorkerPhase1.proceed a p l (workerBackend r)) := by
  cases inp with
  | blank => exact Or.inl ⟨_, rfl, rfl⟩
  | badJson e => exact Or.inl ⟨_, rfl, rfl⟩
  | nonObject => exact Or.inl ⟨_, rfl, rfl⟩
  | obj r ex =>
    dsimp only [workerValidate]
    split_ifs <;>
      first
      | exact Or.inl ⟨_, rfl, rfl⟩
      | exact Or.inr ⟨r, ex, _, _, _, rfl, not_not.mp (by assumption), rfl⟩

/-- The loader environment of the C7 scenario: the vibevoice runtime
package is missing, so the runtime status probe fails. -/
def loaderEnvC7 : LoaderEnv :=
  { runtimeStatusOk := false,
    runtimeDetails := "Package 'vibevoice' is not installed." }

set_option maxRecDepth 100000 in
/-- C7: for the in-house VibeVoice-ASR family the transformers fallback is
never attempted, on any environment — but in the runtime-unavailable
scenario the worker exits with code 20, not 11 as claimed: the raised
message ("VibeVoice-ASR runtime is unavailable or incompatible. ...")
contains neither "initialize VibeVoice ASR model" nor
"Failed to load model", so worker_once's dispatch falls through to the
generic failure code, contradicting its own exit-code docstring
("11: model load or model init failure"). -/
theorem vibevoice_family_no_fallback_but_exit20 :
    (∀ (env : LoaderEnv) (requested device : String) (quant : Bool),
      (load_model "microsoft/vibevoice-asr-7b" requested device quant env).fallbackAttempted
        = false) ∧
    (load_model "microsoft/vibevoice-asr-7b" "fp16" "cuda" true loaderEnvC7).fallbackAttempted
      = false ∧
    workerLoadExit (load_model "microsoft/vibevoice-asr-7b" "fp16" "cuda" true loaderEnvC7)
      = 20 ∧
    (20 : ℕ) ≠ 11 := by
  have hfam : _is_vibevoice_asr_model "microsoft/vibevoice-asr-7b" = true := by
    with_unfolding_all decide
  refine ⟨?_, by with_unfolding_all decide, by with_unfolding_all decide, by decide⟩
  intro env requested device quant
  unfold load_model
  by_cases hstat : env.runtimeStatusOk = true
  · rw [if_neg (fun hc => hc.2 (by simpa using hstat))]
    cases _load_vibevoice_native env
        (_build_model_load_kwargs requested device quant).1.torchDtype.isSome with
    | ok => rfl
    | raised msg => rfl
    | unavailable =>
      dsimp only
      rw [if_pos (by simpa using hfam)]
  · rw [if_pos ⟨by simpa using hfam, by simpa using hstat⟩]

lemma overlap_of_contained (s e : ℚ) (T : Span) (hse : s ≤ e)
    (hc1 : T.startT ≤ s) (hc2 : e ≤ T.endT) :
    _overlap s e T.startT T.endT = e - s := by
  unfold _overlap
  rw [min_eq_left hc2, max_eq_left hc1]
  exact max_eq_right (by linarith)

lemma overlap_lt_of_not_contained (s e : ℚ) (T : Span) (hse : s < e)
    (h : ¬(T.startT ≤ s ∧ e ≤ T.endT)) :
    _overlap s e T.startT T.endT < e - s := by
  unfold _overlap
  rcases not_and_or.mp h with h | h
  · have hs : s < max s T.startT := lt_max_iff.mpr (Or.inr (not_le.mp h))
    have he : min e T.endT ≤ e := min_le_left _ _
    exact max_lt (by linarith) (by linarith)
  · have he : min e T.endT ≤ T.endT := min_le_right _ _
    have hs : s ≤ max s T.startT := le_max_left _ _
    have := not_le.mp h
    exact max_lt (by linarith) (by linarith)

lemma pickLoop_no_update (s e : ℚ) (sp : String) (bov : ℚ) (bd : Option ℚ) :
    ∀ l : List Span,
      (∀ T ∈ l, _overlap s e T.startT T.endT < bov ∧
        ¬ mathIsClose (_overlap s e T.startT T.endT) bov) →
      pickLoop s e sp bov bd l = sp := by
  intro l
  induction l with
  | nil => intro _; rfl
  | cons T rest ih =>
    intro h
    obtain ⟨hlt, hnc⟩ := h T (List.mem_cons_self _ _)
    show (if _ then _ else _) = sp
    rw [if_neg ?_]
    · exact ih (fun U hU => h U (List.mem_cons_of_mem _ hU))
    · rintro (hgt | ⟨hc, _⟩)
      · exact absurd hgt (not_lt.mpr (le_of_lt hlt))
      · exact hnc hc

lemma pickLoop_through_pre (s e : ℚ) (l2 : List Span) :
    ∀ (pre : List Span) (sp : String) (bov : ℚ) (bd : Option ℚ),
      bov < e - s →
      (∀ T ∈ pre, _overlap s e T.startT T.endT < e - s) →
      ∃ sp' bov' bd',
        pickLoop s e sp bov bd (pre ++ l2) = pickLoop s e sp' bov' bd' l2 ∧
        bov' < e - s := by
  intro pre
  induction pre with
  | nil => exact fun sp bov bd hb _ => ⟨sp, bov, bd, rfl, hb⟩
  | cons T rest ih =>
    intro sp bov bd hb hpre
    have hT := hpre T (List.mem_cons_self _ _)
    have htail := fun U hU => hpre U (List.mem_cons_of_mem _ hU)
    by_cases hcond : _overlap s e T.startT T.endT > bov ∨
        (mathIsClose (_overlap s e T.startT T.endT) bov ∧
          distLT |(s + e) / 2 - (T.startT + T.endT) / 2| bd)
    · have hstep : pickLoop s e sp bov bd ((T :: rest) ++ l2)
          = pickLoop s e T.speaker (_overlap s e T.startT T.endT)
              (Option.some |(s + e) / 2 - (T.startT + T.endT) / 2|) (rest ++ l2) := by
        simp only [List.cons_append, pickLoop]
        rw [if_pos hcond]
        rfl
      obtain ⟨sp', bov', bd', heq, hb'⟩ := ih T.speaker _ _ hT htail
      exact ⟨sp', bov', bd', hstep.trans heq, hb'⟩
    · have hstep : pickLoop s e sp bov bd ((T :: rest) ++ l2)
          = pickLoop s e sp bov bd (rest ++ l2) := by
        simp only [List.cons_append, pickLoop]
        rw [if_neg hcond]
        rfl
      obtain ⟨sp', bov', bd', heq, hb'⟩ := ih sp bov bd hb htail
      exact ⟨sp', bov', bd', hstep.trans heq, hb'⟩

/-- C6 (amended): a transcript segment of positive width fully contained in
the span S, where no other normalized diarization span contains it and no
other span's overlap with it ties with the full width within math.isclose's
1e-9 relative tolerance, is assigned S's speaker.  (Without the isclose
side condition the claim is false: a non-containing span whose overlap is
within one part in 10^9 of the width and whose center is closer can win the
tie-break.) -/
theorem pick_best_speaker_contained (s e : ℚ) (pre post : List Span) (S : Span)
    (hwidth : s < e) (hc1 : S.startT ≤ s) (hc2 : e ≤ S.endT)
    (hothers : ∀ T ∈ pre ++ post, ¬(T.startT ≤ s ∧ e ≤ T.endT) ∧
      ¬ mathIsClose (_overlap s e T.startT T.endT) (e - s)) :
    _pick_best_speaker s e (pre ++ S :: post) = S.speaker := by
  have hlt : ∀ T ∈ pre ++ post, _overlap s e T.startT T.endT < e - s :=
    fun T hT => overlap_lt_of_not_contained s e T hwidth (hothers T hT).1
  have hpre : ∀ T ∈ pre, _overlap s e T.startT T.endT < e - s :=
    fun T hT => hlt T (List.mem_append_left _ hT)
  have hpost : ∀ T ∈ post, _overlap s e T.startT T.endT < e - s ∧
      ¬ mathIsClose (_overlap s e T.startT T.endT) (e - s) :=
    fun T hT => ⟨hlt T (List.mem_append_right _ hT),
      (hothers T (List.mem_append_right _ hT)).2⟩
  obtain ⟨sp', bov', bd', heq, hb'⟩ :=
    pickLoop_through_pre s e (S :: post) pre "Speaker_0" (-1) Option.none
      (by linarith) hpre
  unfold _pick_best_speaker
  rw [heq]
  have hovS : _overlap s e S.startT S.endT = e - s :=
    overlap_of_contained s e S (le_of_lt hwidth) hc1 hc2
  have hstep : pickLoop s e sp' bov' bd' (S :: post)
      = pickLoop s e S.speaker (_overlap s e S.startT S.endT)
          (Option.some |(s + e) / 2 - (S.startT + S.endT) / 2|) post := by
    simp only [pickLoop]
    rw [if_pos (Or.inl (by rw [hovS]; exact hb'))]
  rw [hstep, hovS]
  exact pickLoop_no_update s e S.speaker (e - s) _ post hpost

/-- Witness for the amended C6 at a concrete input: the segment [1,2] is
contained only in Alice's span [1,3]; Bob's span [1,3/2] overlaps by 1/2,
far from the width, so Alice is picked. -/
theorem pick_best_speaker_contained_witness :
    _pick_best_speaker 1 2
      [{ speaker := "Alice", startT := 1, endT := 3 },
       { speaker := "Bob", startT := 1, endT := 3/2 }] = "Alice" :=
  pick_best_speaker_contained 1 2 []
    [{ speaker := "Bob", startT := 1, endT := 3/2 }]
    { speaker := "Alice", startT := 1, endT := 3 }
    (by norm_num) (by norm_num) (by norm_num)
    (by with_unfolding_all decide)

/-- Transcript input of the C6 counterexample: one segment
[1, 2000000001], width 2·10⁹ (math.isclose's 1e-9 relative tolerance then
admits an absolute overlap gap of up to 2). -/
def trC6 : List RawEntry :=
  [{ text := .str "hi", start_time := .num 1, end_time := .num 2000000001 }]

/-- Diarization input of the C6 counterexample: Alice's span
[1, 2000000004] fully contains the segment; Bob's span [1, 2000000000]
does not, but its overlap (1999999999) is within the 1e-9 relative
tolerance of the full width (2000000000) and its center is closer to the
segment center. -/
def spC6 : List RawSpan :=
  [{ speaker := .str "Alice", start := .num 1, end_ := .num 2000000004 },
   { speaker := .str "Bob", start := .num 1, end_ := .num 2000000000 }]

set_option maxRecDepth 4000 in
/-- Counterexample for C6 as stated: the normalized transcript segment is
temporally fully contained in exactly one normalized diarization span
(Alice's; Bob's span does not contain it), yet the alignment assigns Bob
through the isclose tie-break. -/
theorem align_contained_counterexample :
    (align_transcription_with_speakers trC6 spC6).map Seg.speaker = ["Bob"] ∧
    (_normalize_speaker_segments spC6).map Span.speaker = ["Alice", "Bob"] ∧
    (∀ s ∈ normalize_transcription_segments trC6 Option.none,
      ∀ T ∈ _normalize_speaker_segments spC6,
        (T.speaker = "Alice" → T.startT ≤ s.startT ∧ s.endT ≤ T.endT) ∧
        (T.speaker = "Bob" → ¬(T.startT ≤ s.startT ∧ s.endT ≤ T.endT))) ∧
    "Bob" ≠ "Alice" := by
  with_unfolding_all decide

lemma dropWhile_head_false {p : Char → Bool} :
    ∀ (l : List Char) (c : Char) (r : List Char),
      l.dropWhile p = c :: r → p c = false := by
  intro l
  induction l with
  | nil => intro c r h; simp [List.dropWhile] at h
  | cons a as ih =>
    intro c r h
    by_cases hp : p a
    · rw [List.dropWhile_cons_of_pos hp] at h
      exact ih c r h
    · rw [List.dropWhile_cons_of_neg hp] at h
      cases h
      simpa using hp

lemma dropWhile_eq_self {p : Char → Bool} (l : List Char)
    (h : ∀ c r, l = c :: r → p c = false) : l.dropWhile p = l := by
  cases l with
  | nil => rfl
  | cons a as => rw [List.dropWhile_cons_of_neg (by simp [h a as rfl])]

lemma stripList_idem (l : List Char) : stripList (stripList l) = stripList l := by
  set A := l.dropWhile isPySpace with hA
  set B := A.reverse.dropWhile isPySpace with hB
  set t := (A.reverse.takeWhile isPySpace).reverse with ht
  have hAhead : ∀ c r, A = c :: r → isPySpace c = false := fun c r h =>
    dropWhile_head_false l c r (by rw [← hA]; exact h)
  have hBhead : ∀ c r, B = c :: r → isPySpace c = false := fun c r h =>
    dropWhile_head_false A.reverse c r (by rw [← hB]; exact h)
  have hsplit := List.takeWhile_append_dropWhile isPySpace A.reverse
  rw [← hB] at hsplit
  have hArev : A = B.reverse ++ t := by
    have h2 := congrArg List.reverse hsplit
    rw [List.reverse_append, List.reverse_reverse, ← ht] at h2
    exact h2.symm
  have hBlast : ∀ c r, B.reverse = c :: r → isPySpace c = false := by
    intro c r h
    apply hAhead c (r ++ t)
    rw [hArev, h, List.cons_append]
  have hSL : stripList l = B.reverse := rfl
  rw [hSL]
  show ((B.reverse.dropWhile isPySpace).reverse.dropWhile isPySpace).reverse
      = B.reverse
  rw [dropWhile_eq_self _ hBlast, List.reverse_reverse,
    dropWhile_eq_self _ hBhead]

lemma pyStrip_idem (s : String) : pyStrip (pyStrip s) = pyStrip s := by
  show String.mk (stripList (String.mk (stripList s.data)).data) = _
  rw [show (String.mk (stripList s.data)).data = stripList s.data from rfl,
    stripList_idem]
  rfl

/-- Well-formedness of a normalized segment's strings: text and speaker are
nonempty and strip-fixed (as normalize_transcription_segments produces). -/
def SegWF (s : Seg) : Prop :=
  s.text ≠ "" ∧ pyStrip s.text = s.text ∧
    s.speaker ≠ "" ∧ pyStrip s.speaker = s.speaker

lemma buildSeg_wf (idx : ℕ) (pe : Option ℚ) (e : RawEntry) (s : Seg)
    (h : buildSeg idx pe e = Option.some s) : SegWF s := by
  unfold buildSeg at h
  by_cases ht : entryText e = ""
  · rw [if_pos ht] at h
    exact absurd h (by simp)
  · rw [if_neg ht] at h
    injection h with h
    subst h
    refine ⟨ht, pyStrip_idem _, ?_, ?_⟩
    · dsimp only
      by_cases hsp : entrySpeaker e = ""
      · rw [if_pos hsp]; decide
      · rw [if_neg hsp]; exact hsp
    · dsimp only
      by_cases hsp : entrySpeaker e = ""
      · rw [if_pos hsp]; decide
      · rw [if_neg hsp]; exact pyStrip_idem _

lemma normalizeLoop_wf : ∀ (l : List RawEntry) (idx : ℕ) (pe : Option ℚ),
    ∀ s ∈ normalizeLoop idx pe l, SegWF s := by
  intro l
  induction l with
  | nil => intro idx pe s h; simp [normalizeLoop] at h
  | cons e rest ih =>
    intro idx pe s h
    revert h
    show s ∈ (match buildSeg idx pe e with
      | Option.none => normalizeLoop (idx + 1) pe rest
      | Option.some sg => sg :: normalizeLoop (idx + 1) (Option.some sg.endT) rest) → _
    cases hb : buildSeg idx pe e with
    | none => exact fun h => ih (idx + 1) pe s h
    | some sg =>
      intro h
      rcases List.mem_cons.mp h with h | h
      · subst h; exact buildSeg_wf idx pe e s hb
      · exact ih (idx + 1) (Option.some sg.endT) s h

lemma insertLE_mem {α : Type} (le : α → α → Bool) (x : α) :
    ∀ (l : List α) (a : α), a ∈ insertLE le x l ↔ a = x ∨ a ∈ l := by
  intro l
  induction l with
  | nil => intro a; simp [insertLE]
  | cons y r ih =>
    intro a
    unfold insertLE
    split_ifs with h
    · simp only [List.mem_cons, ih a]
      tauto
    · simp only [List.mem_cons]

lemma foldl_insert_mem {α : Type} (le : α → α → Bool) :
    ∀ (l acc : List α) (a : α),
      a ∈ l.foldl (fun acc x => insertLE le x acc) acc ↔ a ∈ acc ∨ a ∈ l := by
  intro l
  induction l with
  | nil => intro acc a; simp
  | cons x rest ih =>
    intro acc a
    rw [List.foldl_cons, ih, insertLE_mem, List.mem_cons]
    tauto

lemma stableSort_mem {α : Type} (le : α → α → Bool) (l : List α) (a : α) :
    a ∈ stableSort le l ↔ a ∈ l := by
  unfold stableSort
  rw [foldl_insert_mem]
  simp

lemma fixFrom_src : ∀ (l : List Seg) (p s : Seg), s ∈ fixFrom p l →
    ∃ u ∈ l, s.text = u.text ∧ s.speaker = u.speaker := by
  intro l
  induction l with
  | nil => intro p s h; simp [fixFrom] at h
  | cons u rest ih =>
    intro p s h
    rcases List.mem_cons.mp h with h | h
    · subst h
      exact ⟨u, List.mem_cons_self _ _, fixStep_text p u, fixStep_speaker p u⟩
    · obtain ⟨v, hv, h1, h2⟩ := ih (fixStep p u) s h
      exact ⟨v, List.mem_cons_of_mem _ hv, h1, h2⟩

lemma fixOverlaps_src (l : List Seg) (s : Seg) (h : s ∈ fixOverlaps l) :
    ∃ u ∈ l, s.text = u.text ∧ s.speaker = u.speaker := by
  cases l with
  | nil => simp [fixOverlaps] at h
  | cons u rest =>
    rcases List.mem_cons.mp h with h | h
    · subst h
      exact ⟨u, List.mem_cons_self _ _, fixHead_text u, fixHead_speaker u⟩
    · obtain ⟨v, hv, h1, h2⟩ := fixFrom_src rest (fixHead u) s h
      exact ⟨v, List.mem_cons_of_mem _ hv, h1, h2⟩

lemma normalize_wf (raw : List RawEntry) :
    ∀ s ∈ normalize_transcription_segments raw Option.none, SegWF s := by
  intro s hs
  obtain ⟨u, hu, h1, h2⟩ := fixOverlaps_src _ s hs
  have hwf : SegWF u :=
    normalizeLoop_wf raw 0 Option.none u ((stableSort_mem segLE _ u).mp hu)
  exact ⟨h1 ▸ hwf.1, h1 ▸ hwf.2.1, h2 ▸ hwf.2.2.1, h2 ▸ hwf.2.2.2⟩

lemma chain_tail_ge : ∀ (rest : List Seg) (s : Seg),
    List.Chain' ovRel (s :: rest) → (∀ t ∈ rest, t.startT < t.endT) →
    ∀ t ∈ rest, s.endT ≤ t.startT := by
  intro rest
  induction rest with
  | nil => intro s _ _ t ht; simp at ht
  | cons t r ih =>
    intro s hc hw u hu
    rw [List.chain'_cons] at hc
    rcases List.mem_cons.mp hu with h | h
    · subst h; exact hc.1
    · have h1 := ih t hc.2 (fun v hv => hw v (List.mem_cons_of_mem _ hv)) u h
      have h2 := hw t (List.mem_cons_self _ _)
      have h3 : ovRel s t := hc.1
      unfold ovRel at h3
      linarith

lemma chain_pairwise_segLE : ∀ (l : List Seg), List.Chain' ovRel l →
    (∀ s ∈ l, s.startT < s.endT) →
    List.Pairwise (fun a b => segLE a b = true) l := by
  intro l
  induction l with
  | nil => intro _ _; exact List.Pairwise.nil
  | cons s rest ih =>
    intro hc hw
    rw [List.pairwise_cons]
    have hc2 := (List.chain'_cons'.mp hc).2
    refine ⟨fun t ht => ?_,
      ih hc2 (fun v hv => hw v (List.mem_cons_of_mem _ hv))⟩
    have h1 := chain_tail_ge rest s hc
      (fun v hv => hw v (List.mem_cons_of_mem _ hv)) t ht
    have h2 := hw s (List.mem_cons_self _ _)
    simp only [segLE, decide_eq_true_eq]
    linarith

lemma insertLE_append_of_all {α : Type} (le : α → α → Bool) (x : α) :
    ∀ acc : List α, (∀ y ∈ acc, le y x = true) →
      insertLE le x acc = acc ++ [x] := by
  intro acc
  induction acc with
  | nil => intro _; rfl
  | cons y r ih =>
    intro h
    unfold insertLE
    rw [if_pos (h y (List.mem_cons_self _ _)),
      ih (fun z hz => h z (List.mem_cons_of_mem _ hz)), List.cons_append]

lemma foldl_insert_sorted {α : Type} (le : α → α → Bool) :
    ∀ (l acc : List α), (∀ y ∈ acc, ∀ x ∈ l, le y x = true) →
      List.Pairwise (fun a b => le a b = true) l →
      l.foldl (fun acc x => insertLE le x acc) acc = acc ++ l := by
  intro l
  induction l with
  | nil => intro acc _ _; simp
  | cons x rest ih =>
    intro acc hcross hp
    rw [List.pairwise_cons] at hp
    rw [List.foldl_cons,
      insertLE_append_of_all le x acc
        (fun y hy => hcross y hy x (List.mem_cons_self _ _)),
      ih (acc ++ [x]) ?_ hp.2]
    · simp
    · intro y hy z hz
      rcases List.mem_append.mp hy with h | h
      · exact hcross y h z (List.mem_cons_of_mem _ hz)
      · rw [List.mem_singleton] at h
        subst h
        exact hp.1 z hz

lemma stableSort_of_pairwise {α : Type} (le : α → α → Bool) (l : List α)
    (hp : List.Pairwise (fun a b => le a b = true) l) :
    stableSort le l = l := by
  have h := foldl_insert_sorted le l [] (by simp) hp
  simpa [stableSort] using h

lemma fixFrom_id : ∀ (l : List Seg) (p : Seg),
    (∀ s ∈ l, s.startT < s.endT) → List.Chain' ovRel (p :: l) →
    fixFrom p l = l := by
  intro l
  induction l with
  | nil => intro p _ _; rfl
  | cons s rest ih =>
    intro p hw hc
    rw [List.chain'_cons] at hc
    have hs := fixStep_eq_self p s hc.1 (hw s (List.mem_cons_self _ _))
    show fixStep p s :: fixFrom (fixStep p s) rest = s :: rest
    rw [hs, ih s (fun v hv => hw v (List.mem_cons_of_mem _ hv)) hc.2]

lemma fixOverlaps_id (l : List Seg) (hw : ∀ s ∈ l, s.startT < s.endT)
    (hc : List.Chain' ovRel l) : fixOverlaps l = l := by
  cases l with
  | nil => rfl
  | cons s rest =>
    have h0 := fixHead_eq_self s (hw s (List.mem_cons_self _ _))
    show fixHead s :: fixFrom (fixHead s) rest = s :: rest
    rw [h0, fixFrom_id rest s (fun v hv => hw v (List.mem_cons_of_mem _ hv)) hc]

lemma entryText_segToRaw (s : Seg) (h : SegWF s) :
    entryText (segToRaw s) = s.text := by
  unfold entryText segToRaw pyOrV
  rw [if_pos (by simp [PyVal.truthy, h.1])]
  exact h.2.1

lemma entrySpeaker_segToRaw (s : Seg) (h : SegWF s) :
    entrySpeaker (segToRaw s) = s.speaker := by
  unfold entrySpeaker segToRaw pyOrV
  rw [if_pos (by simp [PyVal.truthy, h.2.2.1])]
  exact h.2.2.2

lemma extractTime_num_only (q : ℚ) :
    extractTime (PyVal.num q) PyVal.none PyVal.none PyVal.none
      = if q ≠ 0 then Option.some q else Option.none := rfl

lemma buildSeg_segToRaw (idx : ℕ) (pe : Option ℚ) (s : Seg) (hwf : SegWF s)
    (hlt : s.startT < s.endT) (hend : s.endT ≠ 0)
    (hstart : s.startT ≠ 0 ∨
      (s.startT = 0 ∧ pe = Option.none ∧ idx = 0)) :
    buildSeg idx pe (segToRaw s) = Option.some s := by
  have hstartv : entryStart idx pe (segToRaw s) = s.startT := by
    simp only [entryStart, segToRaw, extractTime_num_only]
    rcases hstart with h | ⟨h0, hpe, hidx⟩
    · rw [if_pos h]
    · subst hpe
      subst hidx
      rw [if_neg (by simpa using h0)]
      simpa using h0.symm
  have hendv : ∀ (a : ℚ) (t : String), entryEnd a t (segToRaw s) = s.endT := by
    intro a t
    simp only [entryEnd, segToRaw, extractTime_num_only]
    rw [if_pos hend]
  unfold buildSeg
  rw [entryText_segToRaw s hwf, if_neg hwf.1, entrySpeaker_segToRaw s hwf,
    if_neg hwf.2.2.1, hstartv, hendv, if_neg (not_le.mpr hlt)]

lemma normalizeLoop_segToRaw_pos : ∀ (l : List Seg) (idx : ℕ) (pe : Option ℚ),
    (∀ s ∈ l, SegWF s ∧ 0 < s.startT ∧ s.startT < s.endT) →
    normalizeLoop idx pe (l.map segToRaw) = l := by
  intro l
  induction l with
  | nil => intro idx pe _; rfl
  | cons s rest ih =>
    intro idx pe h
    have hs := h s (List.mem_cons_self _ _)
    have hb := buildSeg_segToRaw idx pe s hs.1 hs.2.2
      (ne_of_gt (lt_trans hs.2.1 hs.2.2)) (Or.inl (ne_of_gt hs.2.1))
    rw [List.map_cons]
    show (match buildSeg idx pe (segToRaw s) with
      | Option.none => normalizeLoop (idx + 1) pe (rest.map segToRaw)
      | Option.some sg =>
        sg :: normalizeLoop (idx + 1) (Option.some sg.endT) (rest.map segToRaw))
      = s :: rest
    rw [hb]
    show s :: normalizeLoop (idx + 1) (Option.some s.endT) (rest.map segToRaw)
      = s :: rest
    rw [ih (idx + 1) (Option.some s.endT)
      (fun v hv => h v (List.mem_cons_of_mem _ hv))]

lemma normalizeLoop_segToRaw (out : List Seg)
    (hwf : ∀ s ∈ out, SegWF s) (hw : ∀ s ∈ out, s.startT < s.endT)
    (hch : List.Chain' ovRel out) (hpos : ∀ s ∈ out, 0 ≤ s.startT) :
    normalizeLoop 0 Option.none (out.map segToRaw) = out := by
  cases out with
  | nil => rfl
  | cons s rest =>
    have hs0 : 0 ≤ s.startT := hpos s (List.mem_cons_self _ _)
    have hslt : s.startT < s.endT := hw s (List.mem_cons_self _ _)
    have hhead : buildSeg 0 Option.none (segToRaw s) = Option.some s := by
      rcases eq_or_lt_of_le hs0 with h0 | h0
      · exact buildSeg_segToRaw 0 Option.none s (hwf s (List.mem_cons_self _ _))
          hslt (ne_of_gt (h0 ▸ hslt)) (Or.inr ⟨h0.symm, rfl, rfl⟩)
      · exact buildSeg_segToRaw 0 Option.none s (hwf s (List.mem_cons_self _ _))
          hslt (ne_of_gt (lt_trans h0 hslt)) (Or.inl (ne_of_gt h0))
    have htail : ∀ t ∈ rest, SegWF t ∧ 0 < t.startT ∧ t.startT < t.endT := by
      intro t ht
      have h1 := chain_tail_ge rest s hch
        (fun v hv => hw v (List.mem_cons_of_mem _ hv)) t ht
      exact ⟨hwf t (List.mem_cons_of_mem _ ht),
        lt_of_lt_of_le (lt_of_le_of_lt hs0 hslt) h1,
        hw t (List.mem_cons_of_mem _ ht)⟩
    rw [List.map_cons]
    show (match buildSeg 0 Option.none (segToRaw s) with
      | Option.none => normalizeLoop 1 Option.none (rest.map segToRaw)
      | Option.some sg =>
        sg :: normalizeLoop 1 (Option.some sg.endT) (rest.map segToRaw))
      = s :: rest
    rw [hhead]
    show s :: normalizeLoop 1 (Option.some s.endT) (rest.map segToRaw) = s :: rest
    rw [normalizeLoop_segToRaw_pos rest 1 (Option.some s.endT) htail]

set_option maxRecDepth 2000 in
/-- Counterexample for C10 as stated: on an input with negative timestamps,
the output segment (-1/2, 0) re-normalizes to (-1/2, 1/10): the end_time
of exactly 0.0 is re-extracted as absent by the alias chain and replaced by
the word-count end estimate, so the function is not idempotent. -/
theorem normalize_not_idempotent_counterexample :
    normalize_transcription_segments
        ((normalize_transcription_segments
            [{ text := .str "a", start_time := .num (-1/2), end_time := .num (-7/10) }]
            Option.none).map segToRaw) Option.none
      ≠ normalize_transcription_segments
          [{ text := .str "a", start_time := .num (-1/2), end_time := .num (-7/10) }]
          Option.none ∧
    normalize_transcription_segments
        [{ text := .str "a", start_time := .num (-1/2), end_time := .num (-7/10) }]
        Option.none
      = [{ speaker := "Speaker_0", startT := -1/2, endT := 0, text := "a" }] ∧
    normalize_transcription_segments
        ((normalize_transcription_segments
            [{ text := .str "a", start_time := .num (-1/2), end_time := .num (-7/10) }]
            Option.none).map segToRaw) Option.none
      = [{ speaker := "Speaker_0", startT := -1/2, endT := 1/10, text := "a" }] := by
  with_unfolding_all decide

/-- C10 (amended): normalize_transcription_segments with no fallback
duration is idempotent on every input whose normalized output has only
nonnegative start times (equivalently, whenever the first segment does not
start before 0): re-feeding the output reconstructs every segment exactly —
a first segment starting at 0.0 is re-extracted as absent and rebuilt as
idx*2.0 = 0.0, all later bounds are positive and parse back unchanged, and
the sort and overlap passes fix an already-normalized list.  (On outputs
with negative times it is not idempotent; see the counterexample.) -/
theorem normalize_idempotent_nonneg (raw : List RawEntry)
    (hpos : ∀ s ∈ normalize_transcription_segments raw Option.none,
      0 ≤ s.startT) :
    normalize_transcription_segments
        ((normalize_transcription_segments raw Option.none).map segToRaw)
        Option.none
      = normalize_transcription_segments raw Option.none := by
  obtain ⟨hw, hch⟩ := normalize_invariant raw Option.none
  have hwf := normalize_wf raw
  have h1 := normalizeLoop_segToRaw
    (normalize_transcription_segments raw Option.none) hwf hw hch hpos
  have h2 := stableSort_of_pairwise segLE
    (normalize_transcription_segments raw Option.none)
    (chain_pairwise_segLE _ hch hw)
  have h3 := fixOverlaps_id
    (normalize_transcription_segments raw Option.none) hw hch
  show fixOverlaps (stableSort segLE (normalizeLoop 0 Option.none
      ((normalize_transcription_segments raw Option.none).map segToRaw)))
    = normalize_transcription_segments raw Option.none
  rw [h1, h2, h3]

set_option maxRecDepth 2000 in
/-- Witness for the amended C10 at a concrete input with a nonnegative
timeline. -/
theorem normalize_idempotent_nonneg_witness :
    normalize_transcription_segments
        ((normalize_transcription_segments
            [{ text := .str "hi", start_time := .num 1, end_time := .num 2 }]
            Option.none).map segToRaw) Option.none
      = normalize_transcription_segments
          [{ text := .str "hi", start_time := .num 1, end_time := .num 2 }]
          Option.none :=
  normalize_idempotent_nonneg
    [{ text := .str "hi", start_time := .num 1, end_time := .num 2 }]
    (by with_unfolding_all decide)

end TrisprFlow
